import Mathlib

/-!
Verification of the WebSocket connection hub of the botanicgoweb backend
(`internal/handlers` websocket file: `Message`, `Client`, `Hub`, `Hub.run`,
`Client.readPump`, `WSHandler.HandleWebSocket`).

The hub's event loop is embedded as a step function on an explicit state:
Go maps become association lists, channels become explicit queues, `close`
on a send channel is recorded by a `closed` flag together with a
`closeCount` counter (Go panics when a channel is closed twice, so the
at-most-once property is expressed as `closeCount ≤ 1`), `uuid.New()` and
`time.Now()` are drawn from a `fresh` counter, and the ephemeral
completion goroutine is split into the synchronous part of the `user`
branch of `Hub.run` (which registers the cancellation handle and spawns
the call) and `finishCall` (the goroutine body's effect once the LLM call
returns).
-/

namespace Botanic

/-- Wire-level websocket message, mirroring the Go `Message` struct
(`id`, `type`, `sessionId`, `userId`, `role`, `content`, `model`,
`createdAt`); `time.Time` is abstracted to a `Nat` timestamp. -/
structure Message where
  id : String
  type : String
  sessionID : String
  userID : String
  role : String
  content : String
  model : String
  createdAt : Nat
deriving DecidableEq, Repr

/-- Clients are identified by an abstract identifier (the Go `*Client`
pointer identity). -/
abbrev ClientId := Nat

/-- Per-connection state: the room it registered with (`Client.room`),
the contents of its buffered outbound channel (`Client.send`), whether
that channel has been closed, and how many times `close` has been called
on it (Go panics on the second close). -/
structure ClientState where
  room : String
  queue : List Message
  closed : Bool
  closeCount : Nat
deriving DecidableEq, Repr

/-- Capacity of a client's outbound channel: `make(chan []byte, 256)` in
`HandleWebSocket`. -/
def sendChanCap : Nat := 256

/-- An in-flight completion request: the goroutine spawned by the `user`
branch of `Hub.run`, carrying the room key (`msg.SessionID`), the
identity of its `context.CancelFunc`, and the user content/model it was
called with. -/
structure Call where
  room : String
  handle : Nat
  content : String
  model : String
deriving DecidableEq, Repr

/-- Outcome of `llmClient.GetChatCompletion`: success with the returned
text, a `context.Canceled` error, or any other error. -/
inductive CompletionResult where
  | success (text : String)
  | cancelledRes
  | failure
deriving DecidableEq, Repr

/-- Lookup in a Go map modelled as an association list. -/
def mapLookup {κ α : Type} [DecidableEq κ] : List (κ × α) → κ → Option α
  | [], _ => none
  | (k', v) :: t, k => if k' = k then some v else mapLookup t k

/-- Go map assignment `m[k] = v`: replace the first binding of `k` in
place, or append a fresh binding. -/
def mapInsert {κ α : Type} [DecidableEq κ] : List (κ × α) → κ → α → List (κ × α)
  | [], k, v => [(k, v)]
  | (k', v') :: t, k, v => if k' = k then (k, v) :: t else (k', v') :: mapInsert t k v

/-- Go `delete(m, k)`: remove every binding of `k`. -/
def mapErase {κ α : Type} [DecidableEq κ] : List (κ × α) → κ → List (κ × α)
  | [], _ => []
  | (k', v) :: t, k => if k' = k then mapErase t k else (k', v) :: mapErase t k

/-- State owned by the hub: the room registry (`Hub.rooms`, a map from
session id to the set of clients in the room), the per-client connection
states, the in-flight cancellation map (`Hub.aiRequests`), the multiset of
cancellation handles that have been invoked, the set of completion
goroutines still running, and a counter supplying fresh UUIDs, timestamps
and `CancelFunc` identities. -/
structure HubState where
  rooms : List (String × List ClientId)
  clients : List (ClientId × ClientState)
  aiRequests : List (String × Nat)
  cancelled : List Nat
  pending : List Call
  fresh : Nat
deriving DecidableEq, Repr

/-- Set of clients currently in room `R` (`h.rooms[R]`; a missing room
reads as the empty set, as a nil Go map does). -/
def roomClients (s : HubState) (R : String) : List ClientId :=
  (mapLookup s.rooms R).getD []

/-- Effect of `close(client.send)` on a connection's state. -/
def closeSend (cs : ClientState) : ClientState :=
  { cs with closed := true, closeCount := cs.closeCount + 1 }

/-- The delivery loop of the assistant/typing branch of `Hub.run` (lines
121-129): for each client of the room, a non-blocking send of the
marshalled frame; on a full queue the client's channel is closed and the
client is deleted from the room's set. Returns the room's new set and the
updated client states. -/
def deliverVisible (m : Message) :
    List ClientId → List (ClientId × ClientState) →
    List ClientId × List (ClientId × ClientState)
  | [], clients => ([], clients)
  | cid :: rest, clients =>
    match mapLookup clients cid with
    | none =>
      let r := deliverVisible m rest clients
      (cid :: r.1, r.2)
    | some cs =>
      if cs.queue.length < sendChanCap then
        let r := deliverVisible m rest
          (mapInsert clients cid { cs with queue := cs.queue ++ [m] })
        (cid :: r.1, r.2)
      else
        deliverVisible m rest (mapInsert clients cid (closeSend cs))

/-- The delivery loop for the synthetic typing indicator of the `user`
branch of `Hub.run` (lines 145-152): a non-blocking send that, on a full
queue, only logs a warning — the client is neither closed nor removed. -/
def deliverTyping (m : Message) :
    List ClientId → List (ClientId × ClientState) → List (ClientId × ClientState)
  | [], clients => clients
  | cid :: rest, clients =>
    match mapLookup clients cid with
    | none => deliverTyping m rest clients
    | some cs =>
      if cs.queue.length < sendChanCap then
        deliverTyping m rest
          (mapInsert clients cid { cs with queue := cs.queue ++ [m] })
      else
        deliverTyping m rest clients

/-- The synthetic typing indicator built at lines 135-141 of `Hub.run`
(`uuid.New()` and `time.Now()` drawn from the fresh counter `n`). -/
def typingMsgOf (n : Nat) (m : Message) : Message :=
  { id := toString n, type := "typing", sessionID := m.sessionID,
    userID := "", role := "assistant", content := "", model := "",
    createdAt := n }

/-- One iteration of `Hub.run` consuming a register event (lines 75-82):
the client is added to its room's set, the room being created if absent. -/
def registerStep (s : HubState) (cid : ClientId) : HubState :=
  match mapLookup s.clients cid with
  | none => s
  | some cs =>
    let set := roomClients s cs.room
    let set' := if cid ∈ set then set else set ++ [cid]
    { s with rooms := mapInsert s.rooms cs.room set' }

/-- One iteration of `Hub.run` consuming an unregister event (lines
84-94): if the registry still holds an entry for the client's room, the
client is deleted from that set, `close(client.send)` is called
(unconditionally — even when the channel was already closed by the
full-queue drop path), and the room is deleted if its set is now empty. -/
def unregisterStep (s : HubState) (cid : ClientId) : HubState :=
  match mapLookup s.clients cid with
  | none => s
  | some cs =>
    match mapLookup s.rooms cs.room with
    | none => s
    | some set =>
      let set' := set.filter (fun c => c ≠ cid)
      let clients' := mapInsert s.clients cid (closeSend cs)
      let rooms' :=
        if set' = [] then mapErase s.rooms cs.room
        else mapInsert s.rooms cs.room set'
      { s with rooms := rooms', clients := clients' }

/-- One iteration of `Hub.run` consuming a broadcast event (lines
96-207). A `stop` frame invokes and removes the room's cancellation
handle and is never forwarded. A frame with assistant role or typing type
is delivered to every client of its room, dropping clients whose queue is
full. A user-role frame additionally emits the synthetic typing
indicator (non-blocking, no drop), registers a fresh cancellation handle
under the room key (overwriting any existing one), and spawns the
completion goroutine. -/
def broadcastStep (s : HubState) (m : Message) : HubState :=
  if m.type = "stop" then
    match mapLookup s.aiRequests m.sessionID with
    | some c =>
      { s with cancelled := c :: s.cancelled,
               aiRequests := mapErase s.aiRequests m.sessionID }
    | none => s
  else
    let s1 :=
      if m.role = "assistant" ∨ m.type = "typing" then
        match mapLookup s.rooms m.sessionID with
        | none => s
        | some set =>
          let r := deliverVisible m set s.clients
          { s with rooms := mapInsert s.rooms m.sessionID r.1, clients := r.2 }
      else s
    if m.role = "user" then
      let typing := typingMsgOf s1.fresh m
      let clients2 := deliverTyping typing (roomClients s1 m.sessionID) s1.clients
      { s1 with
        clients := clients2,
        aiRequests := mapInsert s1.aiRequests m.sessionID s1.fresh,
        pending := s1.pending ++
          [{ room := m.sessionID, handle := s1.fresh,
             content := m.content, model := m.model }],
        fresh := s1.fresh + 1 }
    else s1

/-- A sequence of broadcast events consumed one at a time by the hub
loop. -/
def broadcastSeq (s : HubState) (ms : List Message) : HubState :=
  ms.foldl broadcastStep s

/-- Effect of the completion goroutine (lines 159-205) once
`GetChatCompletion` returns: the deferred block deletes the in-flight
map entry under the goroutine's own room key unconditionally, the
goroutine ends, and only on success an assistant `message` wrapping the
returned text is fed back into the broadcast channel (returned as the
second component; `none` means nothing is sent — the error branch that
would send an error frame is commented out in the source). -/
def finishCall (s : HubState) (call : Call) (res : CompletionResult) :
    HubState × Option Message :=
  let s' := { s with aiRequests := mapErase s.aiRequests call.room,
                     pending := s.pending.erase call }
  match res with
  | CompletionResult.success t =>
    ({ s' with fresh := s.fresh + 1 },
     some { id := toString s.fresh, type := "message", sessionID := call.room,
            userID := "assistant", role := "assistant", content := t,
            model := call.model, createdAt := s.fresh })
  | CompletionResult.cancelledRes => (s', none)
  | CompletionResult.failure => (s', none)

/-- The per-frame body of `Client.readPump` (line 236): the parsed frame
is forwarded to the hub's broadcast channel with its session id
overwritten by the room the connection registered with. -/
def forwardFrame (room : String) (m : Message) : Message :=
  { m with sessionID := room }

/-- The connection state built by `HandleWebSocket` (line 298): an empty
buffered send channel and the room taken from the `session_id` query
parameter. -/
def newClientState (sessionID : String) : ClientState :=
  { room := sessionID, queue := [], closed := false, closeCount := 0 }

/-- A frame the hub forwards to a room's clients: not a `stop` command,
not user-authored, and bearing the assistant role or the typing type
(the condition of lines 98/110 of `Hub.run`), addressed to room `R`. -/
abbrev visibleTo (R : String) (m : Message) : Prop :=
  m.sessionID = R ∧ m.type ≠ "stop" ∧ m.role ≠ "user" ∧
    (m.role = "assistant" ∨ m.type = "typing")

/-- Filler frame used to saturate an outbound queue in concrete
scenarios. -/
def fillMsg : Message :=
  { id := "f", type := "message", sessionID := "s1", userID := "assistant",
    role := "assistant", content := "old", model := "", createdAt := 0 }

/-- A concrete assistant-authored message for room `s1`. -/
def asstMsg : Message :=
  { id := "a1", type := "message", sessionID := "s1", userID := "assistant",
    role := "assistant", content := "hello", model := "gpt", createdAt := 1 }

/-- A second concrete assistant-authored message for room `s1`. -/
def asstMsg2 : Message :=
  { id := "a2", type := "message", sessionID := "s1", userID := "assistant",
    role := "assistant", content := "again", model := "gpt", createdAt := 2 }

/-- A concrete user-authored `message` frame for room `s1`. -/
def userMsg : Message :=
  { id := "u1", type := "message", sessionID := "s1", userID := "u",
    role := "user", content := "hi", model := "gpt", createdAt := 3 }

/-- A concrete `stop` frame for room `s1`. -/
def stopMsg : Message :=
  { id := "st", type := "stop", sessionID := "s1", userID := "u",
    role := "user", content := "", model := "", createdAt := 4 }

/-- A connection of room `s1` whose outbound queue is at capacity. -/
def fullClient : ClientState :=
  { room := "s1", queue := List.replicate sendChanCap fillMsg,
    closed := false, closeCount := 0 }

/-- Hub state with a single connection (id 0) in room `s1` whose queue is
at capacity. -/
def fullState : HubState :=
  { rooms := [("s1", [0])], clients := [(0, fullClient)],
    aiRequests := [], cancelled := [], pending := [], fresh := 0 }

/-- Hub state with a single connection (id 7) in room `s1` whose queue is
at capacity, used for the double-close trace. -/
def dropState : HubState :=
  { rooms := [("s1", [7])], clients := [(7, fullClient)],
    aiRequests := [], cancelled := [], pending := [], fresh := 0 }

/-- Hub state with two fresh connections (ids 0 and 1) in room `s1` and
one in-flight request handle 9 for `s1`. -/
def wState : HubState :=
  { rooms := [("s1", [0, 1])],
    clients := [(0, newClientState "s1"), (1, newClientState "s1")],
    aiRequests := [("s1", 9)], cancelled := [], pending := [], fresh := 10 }

/-- First completion call for room `s1`, handle 1 (already overwritten in
the in-flight map). -/
def call1 : Call := { room := "s1", handle := 1, content := "a", model := "m" }

/-- Second completion call for room `s1`, handle 2 (the current map
entry). -/
def call2 : Call := { room := "s1", handle := 2, content := "b", model := "m" }

/-- Hub state in which the map entry for `s1` holds call2's handle while
both call1 and call2 are still running. -/
def twoCallState : HubState :=
  { rooms := [], clients := [], aiRequests := [("s1", 2)],
    cancelled := [], pending := [call1, call2], fresh := 3 }

/-- A frame whose embedded sessionId names a room other than the one the
connection registered with. -/
def spoofMsg : Message :=
  { id := "sp", type := "stop", sessionID := "s9", userID := "u",
    role := "user", content := "", model := "", createdAt := 5 }

theorem mapLookup_insert_self {κ α : Type} [DecidableEq κ]
    (l : List (κ × α)) (k : κ) (v : α) :
    mapLookup (mapInsert l k v) k = some v := by
  induction l with
  | nil => simp [mapInsert, mapLookup]
  | cons p t ih =>
    obtain ⟨k', v'⟩ := p
    by_cases h : k' = k <;> simp [mapInsert, mapLookup, h, ih]

theorem mapLookup_insert_ne {κ α : Type} [DecidableEq κ]
    (l : List (κ × α)) (k k' : κ) (v : α) (h : k' ≠ k) :
    mapLookup (mapInsert l k v) k' = mapLookup l k' := by
  induction l with
  | nil => simp [mapInsert, mapLookup, h.symm]
  | cons p t ih =>
    obtain ⟨k₀, v₀⟩ := p
    by_cases hk : k₀ = k
    · subst hk
      simp [mapInsert, mapLookup, h.symm]
    · by_cases hk' : k₀ = k' <;> simp [mapInsert, mapLookup, h, hk, hk', ih]

theorem mapLookup_erase_self {κ α : Type} [DecidableEq κ]
    (l : List (κ × α)) (k : κ) :
    mapLookup (mapErase l k) k = none := by
  induction l with
  | nil => simp [mapErase, mapLookup]
  | cons p t ih =>
    obtain ⟨k', v'⟩ := p
    by_cases h : k' = k <;> simp [mapErase, mapLookup, h, ih]

theorem mapLookup_erase_ne {κ α : Type} [DecidableEq κ]
    (l : List (κ × α)) (k k' : κ) (h : k' ≠ k) :
    mapLookup (mapErase l k) k' = mapLookup l k' := by
  induction l with
  | nil => simp [mapErase, mapLookup]
  | cons p t ih =>
    obtain ⟨k₀, v₀⟩ := p
    by_cases hk : k₀ = k
    · subst hk
      simp [mapErase, mapLookup, h.symm, ih]
    · by_cases hk' : k₀ = k' <;> simp [mapErase, mapLookup, h, hk, hk', ih]

theorem mem_keys_mapInsert {κ α : Type} [DecidableEq κ]
    (l : List (κ × α)) (k a : κ) (v : α) :
    a ∈ (mapInsert l k v).map Prod.fst ↔ a = k ∨ a ∈ l.map Prod.fst := by
  induction l with
  | nil => simp [mapInsert]
  | cons p t ih =>
    obtain ⟨k', v'⟩ := p
    by_cases h : k' = k
    · subst h
      simp [mapInsert]
    · simp [mapInsert, h, ih]
      tauto

theorem keys_nodup_mapInsert {κ α : Type} [DecidableEq κ]
    (l : List (κ × α)) (k : κ) (v : α) (h : (l.map Prod.fst).Nodup) :
    ((mapInsert l k v).map Prod.fst).Nodup := by
  induction l with
  | nil => simp [mapInsert]
  | cons p t ih =>
    obtain ⟨k', v'⟩ := p
    simp only [List.map_cons, List.nodup_cons] at h
    by_cases hk : k' = k
    · subst hk
      simpa [mapInsert] using h
    · simp only [mapInsert, hk, if_false, List.map_cons, List.nodup_cons]
      refine ⟨?_, ih h.2⟩
      rw [mem_keys_mapInsert]
      rintro (rfl | hmem)
      · exact hk rfl
      · exact h.1 hmem


theorem deliverVisible_lookup_not_mem (m : Message) (set : List ClientId)
    (clients : List (ClientId × ClientState)) (cid : ClientId) (h : cid ∉ set) :
    mapLookup (deliverVisible m set clients).2 cid = mapLookup clients cid := by
  induction set generalizing clients with
  | nil => rfl
  | cons a rest ih =>
    have ha : cid ≠ a := fun e => h (e ▸ List.mem_cons_self a rest)
    have hrest : cid ∉ rest := fun e => h (List.mem_cons_of_mem a e)
    cases hcs : mapLookup clients a with
    | none => simp [deliverVisible, hcs, ih _ hrest]
    | some cs =>
      by_cases hsp : cs.queue.length < sendChanCap
      · simp [deliverVisible, hcs, hsp, ih _ hrest, mapLookup_insert_ne _ _ _ _ ha]
      · simp [deliverVisible, hcs, hsp, ih _ hrest, mapLookup_insert_ne _ _ _ _ ha]

theorem deliverVisible_sublist (m : Message) (set : List ClientId)
    (clients : List (ClientId × ClientState)) :
    List.Sublist (deliverVisible m set clients).1 set := by
  induction set generalizing clients with
  | nil => simp [deliverVisible]
  | cons a rest ih =>
    cases hcs : mapLookup clients a with
    | none => simpa [deliverVisible, hcs] using List.Sublist.cons₂ a (ih clients)
    | some cs =>
      by_cases hsp : cs.queue.length < sendChanCap
      · simpa [deliverVisible, hcs, hsp] using List.Sublist.cons₂ a (ih _)
      · simpa [deliverVisible, hcs, hsp] using List.Sublist.cons a (ih _)

theorem deliverVisible_mem_space (m : Message) (set : List ClientId)
    (clients : List (ClientId × ClientState)) (cid : ClientId) (cs : ClientState)
    (hnd : set.Nodup) (hmem : cid ∈ set) (hcs : mapLookup clients cid = some cs)
    (hsp : cs.queue.length < sendChanCap) :
    cid ∈ (deliverVisible m set clients).1 ∧
      mapLookup (deliverVisible m set clients).2 cid =
        some { cs with queue := cs.queue ++ [m] } := by
  induction set generalizing clients with
  | nil => cases hmem
  | cons a rest ih =>
    rw [List.nodup_cons] at hnd
    by_cases hca : cid = a
    · subst hca
      have hnm := deliverVisible_lookup_not_mem m rest
        (mapInsert clients cid { cs with queue := cs.queue ++ [m] }) cid hnd.1
      refine ⟨?_, ?_⟩
      · simp [deliverVisible, hcs, hsp]
      · simp [deliverVisible, hcs, hsp, hnm, mapLookup_insert_self]
    · have hmem' : cid ∈ rest := List.mem_of_ne_of_mem hca hmem
      cases hcsa : mapLookup clients a with
      | none =>
        have := ih _ hnd.2 hmem' hcs
        simp [deliverVisible, hcsa, this.1, this.2]
      | some csa =>
        have hane : cid ≠ a := hca
        by_cases hspa : csa.queue.length < sendChanCap
        · have hcs' : mapLookup
              (mapInsert clients a { csa with queue := csa.queue ++ [m] }) cid =
              some cs := by rw [mapLookup_insert_ne _ _ _ _ hane]; exact hcs
          have := ih _ hnd.2 hmem' hcs'
          simp [deliverVisible, hcsa, hspa, this.1, this.2]
        · have hcs' : mapLookup (mapInsert clients a (closeSend csa)) cid =
              some cs := by rw [mapLookup_insert_ne _ _ _ _ hane]; exact hcs
          have := ih _ hnd.2 hmem' hcs'
          simp [deliverVisible, hcsa, hspa, this.1, this.2]

theorem deliverVisible_mem_full (m : Message) (set : List ClientId)
    (clients : List (ClientId × ClientState)) (cid : ClientId) (cs : ClientState)
    (hnd : set.Nodup) (hmem : cid ∈ set) (hcs : mapLookup clients cid = some cs)
    (hsp : sendChanCap ≤ cs.queue.length) :
    cid ∉ (deliverVisible m set clients).1 ∧
      mapLookup (deliverVisible m set clients).2 cid = some (closeSend cs) := by
  have hsp' : ¬ cs.queue.length < sendChanCap := Nat.not_lt.mpr hsp
  induction set generalizing clients with
  | nil => cases hmem
  | cons a rest ih =>
    rw [List.nodup_cons] at hnd
    by_cases hca : cid = a
    · subst hca
      have hnm := deliverVisible_lookup_not_mem m rest
        (mapInsert clients cid (closeSend cs)) cid hnd.1
      refine ⟨?_, ?_⟩
      · intro hin
        simp only [deliverVisible, hcs, hsp', if_false] at hin
        exact hnd.1 ((deliverVisible_sublist m rest _).subset hin)
      · simp [deliverVisible, hcs, hsp', hnm, mapLookup_insert_self]
    · have hmem' : cid ∈ rest := List.mem_of_ne_of_mem hca hmem
      cases hcsa : mapLookup clients a with
      | none =>
        have := ih _ hnd.2 hmem' hcs
        simp [deliverVisible, hcsa, this.1, this.2, hca]
      | some csa =>
        have hane : cid ≠ a := hca
        by_cases hspa : csa.queue.length < sendChanCap
        · have hcs' : mapLookup
              (mapInsert clients a { csa with queue := csa.queue ++ [m] }) cid =
              some cs := by rw [mapLookup_insert_ne _ _ _ _ hane]; exact hcs
          have := ih _ hnd.2 hmem' hcs'
          simp [deliverVisible, hcsa, hspa, this.1, this.2, hca]
        · have hcs' : mapLookup (mapInsert clients a (closeSend csa)) cid =
              some cs := by rw [mapLookup_insert_ne _ _ _ _ hane]; exact hcs
          have := ih _ hnd.2 hmem' hcs'
          simp [deliverVisible, hcsa, hspa, this.1, this.2, hca]

theorem deliverTyping_lookup_not_mem (m : Message) (set : List ClientId)
    (clients : List (ClientId × ClientState)) (cid : ClientId) (h : cid ∉ set) :
    mapLookup (deliverTyping m set clients) cid = mapLookup clients cid := by
  induction set generalizing clients with
  | nil => rfl
  | cons a rest ih =>
    have ha : cid ≠ a := fun e => h (e ▸ List.mem_cons_self a rest)
    have hrest : cid ∉ rest := fun e => h (List.mem_cons_of_mem a e)
    cases hcs : mapLookup clients a with
    | none => simp [deliverTyping, hcs, ih _ hrest]
    | some cs =>
      by_cases hsp : cs.queue.length < sendChanCap
      · simp [deliverTyping, hcs, hsp, ih _ hrest, mapLookup_insert_ne _ _ _ _ ha]
      · simp [deliverTyping, hcs, hsp, ih _ hrest]

theorem deliverTyping_mem_space (m : Message) (set : List ClientId)
    (clients : List (ClientId × ClientState)) (cid : ClientId) (cs : ClientState)
    (hnd : set.Nodup) (hmem : cid ∈ set) (hcs : mapLookup clients cid = some cs)
    (hsp : cs.queue.length < sendChanCap) :
    mapLookup (deliverTyping m set clients) cid =
      some { cs with queue := cs.queue ++ [m] } := by
  induction set generalizing clients with
  | nil => cases hmem
  | cons a rest ih =>
    rw [List.nodup_cons] at hnd
    by_cases hca : cid = a
    · subst hca
      have hnm := deliverTyping_lookup_not_mem m rest
        (mapInsert clients cid { cs with queue := cs.queue ++ [m] }) cid hnd.1
      simp [deliverTyping, hcs, hsp, hnm, mapLookup_insert_self]
    · have hmem' : cid ∈ rest := List.mem_of_ne_of_mem hca hmem
      cases hcsa : mapLookup clients a with
      | none => simp [deliverTyping, hcsa, ih _ hnd.2 hmem' hcs]
      | some csa =>
        by_cases hspa : csa.queue.length < sendChanCap
        · have hcs' : mapLookup
              (mapInsert clients a { csa with queue := csa.queue ++ [m] }) cid =
              some cs := by rw [mapLookup_insert_ne _ _ _ _ hca]; exact hcs
          simp [deliverTyping, hcsa, hspa, ih _ hnd.2 hmem' hcs']
        · simp [deliverTyping, hcsa, hspa, ih _ hnd.2 hmem' hcs]

theorem deliverTyping_mem_full (m : Message) (set : List ClientId)
    (clients : List (ClientId × ClientState)) (cid : ClientId) (cs : ClientState)
    (hnd : set.Nodup) (hmem : cid ∈ set) (hcs : mapLookup clients cid = some cs)
    (hsp : sendChanCap ≤ cs.queue.length) :
    mapLookup (deliverTyping m set clients) cid = some cs := by
  have hsp' : ¬ cs.queue.length < sendChanCap := Nat.not_lt.mpr hsp
  induction set generalizing clients with
  | nil => cases hmem
  | cons a rest ih =>
    rw [List.nodup_cons] at hnd
    by_cases hca : cid = a
    · subst hca
      have hnm := deliverTyping_lookup_not_mem m rest clients cid hnd.1
      simp [deliverTyping, hcs, hsp', hnm]
    · have hmem' : cid ∈ rest := List.mem_of_ne_of_mem hca hmem
      cases hcsa : mapLookup clients a with
      | none => simp [deliverTyping, hcsa, ih _ hnd.2 hmem' hcs]
      | some csa =>
        by_cases hspa : csa.queue.length < sendChanCap
        · have hcs' : mapLookup
              (mapInsert clients a { csa with queue := csa.queue ++ [m] }) cid =
              some cs := by rw [mapLookup_insert_ne _ _ _ _ hca]; exact hcs
          simp [deliverTyping, hcsa, hspa, ih _ hnd.2 hmem' hcs']
        · simp [deliverTyping, hcsa, hspa, ih _ hnd.2 hmem' hcs]

theorem deliverTyping_queue_elems (m : Message) (set : List ClientId)
    (clients : List (ClientId × ClientState)) (cid : ClientId) (cs1 : ClientState)
    (h : mapLookup (deliverTyping m set clients) cid = some cs1) :
    ∃ cs0, mapLookup clients cid = some cs0 ∧
      ∀ x ∈ cs1.queue, x ∈ cs0.queue ∨ x = m := by
  induction set generalizing clients with
  | nil => exact ⟨cs1, h, fun x hx => Or.inl hx⟩
  | cons a rest ih =>
    cases hcsa : mapLookup clients a with
    | none =>
      simp only [deliverTyping, hcsa] at h
      exact ih _ h
    | some csa =>
      by_cases hspa : csa.queue.length < sendChanCap
      · simp only [deliverTyping, hcsa] at h
        rw [if_pos hspa] at h
        obtain ⟨cs0', hl, he⟩ := ih _ h
        by_cases hca : cid = a
        · subst hca
          rw [mapLookup_insert_self] at hl
          obtain rfl : cs0' = { csa with queue := csa.queue ++ [m] } :=
            (Option.some.inj hl).symm
          refine ⟨csa, hcsa, fun x hx => ?_⟩
          rcases he x hx with hq | rfl
          · rcases List.mem_append.mp hq with h1 | h2
            · exact Or.inl h1
            · exact Or.inr (List.mem_singleton.mp h2)
          · exact Or.inr rfl
        · rw [mapLookup_insert_ne _ _ _ _ hca] at hl
          exact ⟨cs0', hl, he⟩
      · simp only [deliverTyping, hcsa] at h
        rw [if_neg hspa] at h
        exact ih _ h

theorem broadcastStep_stop_some (s : HubState) (m : Message) (c : Nat)
    (htype : m.type = "stop") (hc : mapLookup s.aiRequests m.sessionID = some c) :
    broadcastStep s m =
      { s with cancelled := c :: s.cancelled,
               aiRequests := mapErase s.aiRequests m.sessionID } := by
  simp only [broadcastStep, if_pos htype, hc]

theorem broadcastStep_stop_none (s : HubState) (m : Message)
    (htype : m.type = "stop") (hc : mapLookup s.aiRequests m.sessionID = none) :
    broadcastStep s m = s := by
  simp only [broadcastStep, if_pos htype, hc]

theorem broadcastStep_visible_eq (s : HubState) (m : Message) (set : List ClientId)
    (hstop : ¬ m.type = "stop") (hvis : m.role = "assistant" ∨ m.type = "typing")
    (hrole : ¬ m.role = "user") (hset : mapLookup s.rooms m.sessionID = some set) :
    broadcastStep s m =
      { s with
        rooms := mapInsert s.rooms m.sessionID (deliverVisible m set s.clients).1,
        clients := (deliverVisible m set s.clients).2 } := by
  simp only [broadcastStep, if_neg hstop, if_pos hvis, hset, if_neg hrole]

theorem broadcastStep_user_eq (s : HubState) (m : Message)
    (hstop : ¬ m.type = "stop") (hvis : ¬ (m.role = "assistant" ∨ m.type = "typing"))
    (hrole : m.role = "user") :
    broadcastStep s m =
      { s with
        clients := deliverTyping (typingMsgOf s.fresh m)
          (roomClients s m.sessionID) s.clients,
        aiRequests := mapInsert s.aiRequests m.sessionID s.fresh,
        pending := s.pending ++ [{ room := m.sessionID, handle := s.fresh,
                                   content := m.content, model := m.model }],
        fresh := s.fresh + 1 } := by
  simp only [broadcastStep, if_neg hstop, if_neg hvis, if_pos hrole]

theorem broadcastStep_user_fields (s : HubState) (m : Message)
    (hstop : ¬ m.type = "stop") (hrole : m.role = "user") :
    (broadcastStep s m).aiRequests = mapInsert s.aiRequests m.sessionID s.fresh ∧
    (broadcastStep s m).cancelled = s.cancelled ∧
    (broadcastStep s m).pending = s.pending ++
      [{ room := m.sessionID, handle := s.fresh,
         content := m.content, model := m.model }] ∧
    (broadcastStep s m).fresh = s.fresh + 1 := by
  by_cases hvis : m.role = "assistant" ∨ m.type = "typing"
  · cases hset : mapLookup s.rooms m.sessionID with
    | none =>
      simp [broadcastStep, if_neg hstop, if_pos hvis, hset, if_pos hrole]
    | some set =>
      simp [broadcastStep, if_neg hstop, if_pos hvis, hset, if_pos hrole]
  · rw [broadcastStep_user_eq s m hstop hvis hrole]
    exact ⟨rfl, rfl, rfl, rfl⟩

theorem broadcastStep_aiRequests_other (s : HubState) (m : Message) (k : String)
    (hk : k ≠ m.sessionID) :
    mapLookup (broadcastStep s m).aiRequests k = mapLookup s.aiRequests k := by
  by_cases hstop : m.type = "stop"
  · cases hc : mapLookup s.aiRequests m.sessionID with
    | some c =>
      rw [broadcastStep_stop_some s m c hstop hc]
      exact mapLookup_erase_ne _ _ _ hk
    | none => rw [broadcastStep_stop_none s m hstop hc]
  · by_cases hrole : m.role = "user"
    · rw [(broadcastStep_user_fields s m hstop hrole).1]
      exact mapLookup_insert_ne _ _ _ _ hk
    · by_cases hvis : m.role = "assistant" ∨ m.type = "typing"
      · cases hset : mapLookup s.rooms m.sessionID with
        | none => simp only [broadcastStep, if_neg hstop, if_pos hvis, hset, if_neg hrole]
        | some set => simp only [broadcastStep, if_neg hstop, if_pos hvis, hset, if_neg hrole]
      · simp only [broadcastStep, if_neg hstop, if_neg hvis, if_neg hrole]

theorem broadcastStep_rooms_other (s : HubState) (m : Message) (k : String)
    (hk : k ≠ m.sessionID) :
    mapLookup (broadcastStep s m).rooms k = mapLookup s.rooms k := by
  by_cases hstop : m.type = "stop"
  · cases hc : mapLookup s.aiRequests m.sessionID with
    | some c => rw [broadcastStep_stop_some s m c hstop hc]
    | none => rw [broadcastStep_stop_none s m hstop hc]
  · by_cases hvis : m.role = "assistant" ∨ m.type = "typing"
    · cases hset : mapLookup s.rooms m.sessionID with
      | none =>
        by_cases hrole : m.role = "user"
        · simp only [broadcastStep, if_neg hstop, if_pos hvis, hset, if_pos hrole]
        · simp only [broadcastStep, if_neg hstop, if_pos hvis, hset, if_neg hrole]
      | some set =>
        by_cases hrole : m.role = "user"
        · simp only [broadcastStep, if_neg hstop, if_pos hvis, hset, if_pos hrole]
          exact mapLookup_insert_ne _ _ _ _ hk
        · simp only [broadcastStep, if_neg hstop, if_pos hvis, hset, if_neg hrole]
          exact mapLookup_insert_ne _ _ _ _ hk
    · by_cases hrole : m.role = "user"
      · rw [broadcastStep_user_eq s m hstop hvis hrole]
      · simp only [broadcastStep, if_neg hstop, if_neg hvis, if_neg hrole]

theorem broadcastStep_visible_space (s : HubState) (m : Message)
    (cid : ClientId) (cs : ClientState)
    (hstop : ¬ m.type = "stop")
    (hvis : m.role = "assistant" ∨ m.type = "typing")
    (hrole : ¬ m.role = "user")
    (hnd : (roomClients s m.sessionID).Nodup)
    (hmem : cid ∈ roomClients s m.sessionID)
    (hcs : mapLookup s.clients cid = some cs)
    (hsp : cs.queue.length < sendChanCap) :
    cid ∈ roomClients (broadcastStep s m) m.sessionID ∧
    (roomClients (broadcastStep s m) m.sessionID).Nodup ∧
    mapLookup (broadcastStep s m).clients cid =
      some { cs with queue := cs.queue ++ [m] } := by
  obtain ⟨set, hset⟩ : ∃ set, mapLookup s.rooms m.sessionID = some set := by
    cases h : mapLookup s.rooms m.sessionID with
    | none => rw [roomClients, h] at hmem; cases hmem
    | some set => exact ⟨set, rfl⟩
  have hset' : roomClients s m.sessionID = set := by
    rw [roomClients, hset]; rfl
  rw [hset'] at hnd hmem
  have hd := deliverVisible_mem_space m set s.clients cid cs hnd hmem hcs hsp
  have hsub := deliverVisible_sublist m set s.clients
  rw [broadcastStep_visible_eq s m set hstop hvis hrole hset]
  have hroom : roomClients
      { s with
        rooms := mapInsert s.rooms m.sessionID (deliverVisible m set s.clients).1,
        clients := (deliverVisible m set s.clients).2 } m.sessionID =
      (deliverVisible m set s.clients).1 := by
    rw [roomClients]
    simp [mapLookup_insert_self]
  rw [hroom]
  exact ⟨hd.1, List.Nodup.sublist hsub hnd, hd.2⟩

theorem broadcastStep_visible_full (s : HubState) (m : Message)
    (cid : ClientId) (cs : ClientState)
    (hstop : ¬ m.type = "stop")
    (hvis : m.role = "assistant" ∨ m.type = "typing")
    (hrole : ¬ m.role = "user")
    (hnd : (roomClients s m.sessionID).Nodup)
    (hmem : cid ∈ roomClients s m.sessionID)
    (hcs : mapLookup s.clients cid = some cs)
    (hsp : sendChanCap ≤ cs.queue.length) :
    cid ∉ roomClients (broadcastStep s m) m.sessionID ∧
    mapLookup (broadcastStep s m).clients cid = some (closeSend cs) := by
  obtain ⟨set, hset⟩ : ∃ set, mapLookup s.rooms m.sessionID = some set := by
    cases h : mapLookup s.rooms m.sessionID with
    | none => rw [roomClients, h] at hmem; cases hmem
    | some set => exact ⟨set, rfl⟩
  have hset' : roomClients s m.sessionID = set := by
    rw [roomClients, hset]; rfl
  rw [hset'] at hnd hmem
  have hd := deliverVisible_mem_full m set s.clients cid cs hnd hmem hcs hsp
  rw [broadcastStep_visible_eq s m set hstop hvis hrole hset]
  have hroom : roomClients
      { s with
        rooms := mapInsert s.rooms m.sessionID (deliverVisible m set s.clients).1,
        clients := (deliverVisible m set s.clients).2 } m.sessionID =
      (deliverVisible m set s.clients).1 := by
    rw [roomClients]
    simp [mapLookup_insert_self]
  rw [hroom]
  exact ⟨hd.1, hd.2⟩

/-- C1 (amended): for every room `R` and every sequence of client-visible
broadcast frames addressed to `R` (assistant-authored messages or typing
indicators), a connection registered to `R` whose outbound queue has room
for the whole sequence receives exactly those frames, appended to its
queue in invocation order, and stays registered; the amendment restricts
the claim to connections whose queue does not reach capacity, since the
hub drops (closes and removes) a connection whose queue is full instead
of pushing to it. -/
theorem c1_broadcast_order_amended (R : String) (ms : List Message)
    (s : HubState) (cid : ClientId) (cs : ClientState)
    (hms : ∀ m ∈ ms, visibleTo R m)
    (hnd : (roomClients s R).Nodup)
    (hmem : cid ∈ roomClients s R)
    (hcs : mapLookup s.clients cid = some cs)
    (hsp : cs.queue.length + ms.length ≤ sendChanCap) :
    cid ∈ roomClients (broadcastSeq s ms) R ∧
    mapLookup (broadcastSeq s ms).clients cid =
      some { cs with queue := cs.queue ++ ms } := by
  induction ms generalizing s cs with
  | nil =>
    refine ⟨hmem, ?_⟩
    show mapLookup s.clients cid = some { cs with queue := cs.queue ++ [] }
    simpa using hcs
  | cons m rest ih =>
    obtain ⟨hR, hstop, hrole, hvis⟩ := hms m (List.mem_cons_self m rest)
    subst hR
    have h1 : cs.queue.length < sendChanCap := by
      simp only [List.length_cons] at hsp
      omega
    have hstep := broadcastStep_visible_space s m cid cs hstop hvis hrole hnd hmem hcs h1
    have hms' : ∀ m' ∈ rest, visibleTo m.sessionID m' :=
      fun m' hm' => hms m' (List.mem_cons_of_mem m hm')
    have hsp' : ({ cs with queue := cs.queue ++ [m] } : ClientState).queue.length
        + rest.length ≤ sendChanCap := by
      simp only [List.length_append, List.length_singleton, List.length_cons,
        List.length_nil] at hsp ⊢
      omega
    have hres := ih (broadcastStep s m) { cs with queue := cs.queue ++ [m] }
      hms' hstep.2.1 hstep.1 hstep.2.2 hsp'
    have hseq : broadcastSeq s (m :: rest) = broadcastSeq (broadcastStep s m) rest := rfl
    rw [hseq]
    refine ⟨hres.1, ?_⟩
    rw [hres.2]
    simp

set_option maxRecDepth 20000 in
/-- C1 counterexample: a connection registered to room `s1` at broadcast
time whose queue is at capacity does not receive the broadcast frame —
it is dropped with its queue unchanged — so the claim as stated (every
connection registered at broadcast time receives every frame) is false. -/
theorem c1_full_queue_not_pushed_cex :
    0 ∈ roomClients fullState "s1" ∧
    mapLookup (broadcastStep fullState asstMsg).clients 0 =
      some { room := "s1", queue := List.replicate sendChanCap fillMsg,
             closed := true, closeCount := 1 } ∧
    asstMsg ∉ List.replicate sendChanCap fillMsg := by decide

/-- C1 witness: two assistant messages broadcast to room `s1` land, in
invocation order, in the queue of connection 0, which stays registered. -/
theorem c1_broadcast_order_witness :
    (∀ m ∈ [asstMsg, asstMsg2], visibleTo "s1" m) ∧
    (0 ∈ roomClients (broadcastSeq wState [asstMsg, asstMsg2]) "s1" ∧
     mapLookup (broadcastSeq wState [asstMsg, asstMsg2]).clients 0 =
       some { newClientState "s1" with
              queue := (newClientState "s1").queue ++ [asstMsg, asstMsg2] }) :=
  ⟨by decide,
   c1_broadcast_order_amended "s1" [asstMsg, asstMsg2] wState 0
     (newClientState "s1") (by decide) (by decide) (by decide) (by decide)
     (by decide)⟩

/-- C2: a `stop` frame processed by the broadcast branch invokes and
removes the room's in-flight cancellation handle when one exists, leaves
the map untouched when none exists, and in both cases is never pushed to
any connection's outbound queue (client states and room registry are
unchanged). -/
theorem c2_stop_handling (s : HubState) (m : Message) (htype : m.type = "stop") :
    (broadcastStep s m).clients = s.clients ∧
    (broadcastStep s m).rooms = s.rooms ∧
    (∀ c, mapLookup s.aiRequests m.sessionID = some c →
      (broadcastStep s m).aiRequests = mapErase s.aiRequests m.sessionID ∧
      (broadcastStep s m).cancelled = c :: s.cancelled ∧
      mapLookup (broadcastStep s m).aiRequests m.sessionID = none) ∧
    (mapLookup s.aiRequests m.sessionID = none → broadcastStep s m = s) := by
  cases hc : mapLookup s.aiRequests m.sessionID with
  | some c =>
    rw [broadcastStep_stop_some s m c htype hc]
    refine ⟨rfl, rfl, ?_, ?_⟩
    · intro c' hc'
      obtain rfl := Option.some.inj hc'
      exact ⟨rfl, rfl, mapLookup_erase_self _ _⟩
    · intro h
      exact Option.noConfusion h
  | none =>
    rw [broadcastStep_stop_none s m htype hc]
    refine ⟨rfl, rfl, ?_, fun _ => rfl⟩
    intro c' hc'
    exact Option.noConfusion hc'

/-- C2 witness: the concrete `stop` frame for room `s1` against the state
holding handle 9 for `s1`. -/
theorem c2_stop_handling_witness :
    stopMsg.type = "stop" ∧
    ((broadcastStep wState stopMsg).clients = wState.clients ∧
     (broadcastStep wState stopMsg).rooms = wState.rooms ∧
     (∀ c, mapLookup wState.aiRequests stopMsg.sessionID = some c →
       (broadcastStep wState stopMsg).aiRequests =
         mapErase wState.aiRequests stopMsg.sessionID ∧
       (broadcastStep wState stopMsg).cancelled = c :: wState.cancelled ∧
       mapLookup (broadcastStep wState stopMsg).aiRequests stopMsg.sessionID =
         none) ∧
     (mapLookup wState.aiRequests stopMsg.sessionID = none →
       broadcastStep wState stopMsg = wState)) :=
  ⟨by decide, c2_stop_handling wState stopMsg (by decide)⟩

/-- C3: a user-authored message for a room that already holds an
in-flight handle overwrites the map entry with the fresh handle without
invoking the old one (the invoked-handle list is unchanged), and the map
keeps at most one entry per room (key nodup is preserved). -/
theorem c3_user_overwrites_handle (s : HubState) (m : Message) (c : Nat)
    (hrole : m.role = "user") (hstop : ¬ m.type = "stop")
    (hold : mapLookup s.aiRequests m.sessionID = some c)
    (hnc : c ∉ s.cancelled)
    (hkeys : (s.aiRequests.map Prod.fst).Nodup) :
    (broadcastStep s m).aiRequests = mapInsert s.aiRequests m.sessionID s.fresh ∧
    mapLookup (broadcastStep s m).aiRequests m.sessionID = some s.fresh ∧
    (broadcastStep s m).cancelled = s.cancelled ∧
    c ∉ (broadcastStep s m).cancelled ∧
    ((broadcastStep s m).aiRequests.map Prod.fst).Nodup := by
  obtain ⟨h1, h2, _, _⟩ := broadcastStep_user_fields s m hstop hrole
  refine ⟨h1, ?_, h2, ?_, ?_⟩
  · rw [h1]
    exact mapLookup_insert_self _ _ _
  · rw [h2]
    exact hnc
  · rw [h1]
    exact keys_nodup_mapInsert _ _ _ hkeys

/-- C3 witness: a user message for `s1` while handle 9 is in flight ends
with the entry overwritten by the fresh handle 10 and handle 9 never
invoked. -/
theorem c3_user_overwrites_handle_witness :
    (userMsg.role = "user" ∧ ¬ userMsg.type = "stop" ∧
     mapLookup wState.aiRequests userMsg.sessionID = some 9) ∧
    ((broadcastStep wState userMsg).aiRequests =
       mapInsert wState.aiRequests userMsg.sessionID wState.fresh ∧
     mapLookup (broadcastStep wState userMsg).aiRequests userMsg.sessionID =
       some wState.fresh ∧
     (broadcastStep wState userMsg).cancelled = wState.cancelled ∧
     9 ∉ (broadcastStep wState userMsg).cancelled ∧
     ((broadcastStep wState userMsg).aiRequests.map Prod.fst).Nodup) :=
  ⟨⟨by decide, by decide, by decide⟩,
   c3_user_overwrites_handle wState userMsg 9 (by decide) (by decide)
     (by decide) (by decide) (by decide)⟩

/-- C4 (amended): during a broadcast of an assistant-authored message or
typing indicator (the path at lines 121-129 of the hub loop), a
connection of the room whose outbound queue is at capacity is dropped:
its queue is closed and it is removed from the room's set. The amendment
removes the claim's extension to the synthetic typing event of a user
message, which is sent non-blocking without dropping the connection. -/
theorem c4_full_queue_drop_amended (s : HubState) (m : Message)
    (cid : ClientId) (cs : ClientState)
    (hstop : ¬ m.type = "stop")
    (hvis : m.role = "assistant" ∨ m.type = "typing")
    (hrole : ¬ m.role = "user")
    (hnd : (roomClients s m.sessionID).Nodup)
    (hmem : cid ∈ roomClients s m.sessionID)
    (hcs : mapLookup s.clients cid = some cs)
    (hfull : sendChanCap ≤ cs.queue.length) :
    cid ∉ roomClients (broadcastStep s m) m.sessionID ∧
    mapLookup (broadcastStep s m).clients cid = some (closeSend cs) ∧
    (closeSend cs).closed = true := by
  have h := broadcastStep_visible_full s m cid cs hstop hvis hrole hnd hmem hcs hfull
  exact ⟨h.1, h.2, rfl⟩

set_option maxRecDepth 20000 in
/-- C4 witness: the at-capacity connection 0 is dropped (closed and
removed from room `s1`) by a broadcast of a concrete assistant message. -/
theorem c4_full_queue_drop_witness :
    sendChanCap ≤ fullClient.queue.length ∧
    (0 ∉ roomClients (broadcastStep fullState asstMsg) asstMsg.sessionID ∧
     mapLookup (broadcastStep fullState asstMsg).clients 0 =
       some (closeSend fullClient) ∧
     (closeSend fullClient).closed = true) :=
  ⟨by decide,
   c4_full_queue_drop_amended fullState asstMsg 0 fullClient (by decide)
     (by decide) (by decide) (by decide) (by decide) (by decide) (by decide)⟩

set_option maxRecDepth 20000 in
/-- C4 counterexample: the synthetic typing event emitted for a user
message is sent with a non-blocking send that does not drop the client:
with connection 0 at capacity, processing a user message leaves 0 in the
room with its queue never closed, refuting the claim's "including the
synthetic typing event" part. -/
theorem c4_typing_full_no_drop_cex :
    roomClients (broadcastStep fullState userMsg) "s1" = [0] ∧
    mapLookup (broadcastStep fullState userMsg).clients 0 = some fullClient ∧
    fullClient.closed = false ∧ fullClient.closeCount = 0 := by decide

/-- C5: processing a connection's unregister event in one hub-loop
iteration removes it from its room's set, closes its outbound queue, and
deletes the room exactly when the set becomes empty. -/
theorem c5_unregister_cleanup (s : HubState) (cid : ClientId)
    (cs : ClientState) (set : List ClientId)
    (hcs : mapLookup s.clients cid = some cs)
    (hset : mapLookup s.rooms cs.room = some set)
    (hmem : cid ∈ set) :
    mapLookup (unregisterStep s cid).clients cid = some (closeSend cs) ∧
    (closeSend cs).closed = true ∧
    cid ∉ roomClients (unregisterStep s cid) cs.room ∧
    (set.filter (fun c => c ≠ cid) = [] →
      mapLookup (unregisterStep s cid).rooms cs.room = none) ∧
    (set.filter (fun c => c ≠ cid) ≠ [] →
      mapLookup (unregisterStep s cid).rooms cs.room =
        some (set.filter (fun c => c ≠ cid))) := by
  have hstep : unregisterStep s cid =
      { s with
        rooms :=
          if set.filter (fun c => c ≠ cid) = [] then mapErase s.rooms cs.room
          else mapInsert s.rooms cs.room (set.filter (fun c => c ≠ cid)),
        clients := mapInsert s.clients cid (closeSend cs) } := by
    simp only [unregisterStep, hcs, hset]
  rw [hstep]
  refine ⟨mapLookup_insert_self _ _ _, rfl, ?_, ?_, ?_⟩
  · by_cases he : set.filter (fun c => c ≠ cid) = []
    · rw [roomClients, if_pos he, mapLookup_erase_self]
      simp
    · rw [roomClients, if_neg he, mapLookup_insert_self]
      simp [List.mem_filter]
  · intro he
    rw [if_pos he]
    exact mapLookup_erase_self _ _
  · intro he
    rw [if_neg he]
    exact mapLookup_insert_self _ _ _

/-- C5 witness: unregistering connection 1 from the two-connection room
`s1` closes its queue, removes it, and keeps the room with connection 0;
the emptiness branch is exercised vacuously. -/
theorem c5_unregister_cleanup_witness :
    (mapLookup wState.clients 1 = some (newClientState "s1") ∧
     mapLookup wState.rooms "s1" = some [0, 1] ∧ 1 ∈ [0, 1]) ∧
    (mapLookup (unregisterStep wState 1).clients 1 =
       some (closeSend (newClientState "s1")) ∧
     (closeSend (newClientState "s1")).closed = true ∧
     1 ∉ roomClients (unregisterStep wState 1) (newClientState "s1").room ∧
     (([0, 1] : List ClientId).filter (fun c => c ≠ 1) = [] →
       mapLookup (unregisterStep wState 1).rooms (newClientState "s1").room =
         none) ∧
     (([0, 1] : List ClientId).filter (fun c => c ≠ 1) ≠ [] →
       mapLookup (unregisterStep wState 1).rooms (newClientState "s1").room =
         some (([0, 1] : List ClientId).filter (fun c => c ≠ 1)))) :=
  ⟨⟨by decide, by decide, by decide⟩,
   c5_unregister_cleanup wState 1 (newClientState "s1") [0, 1] (by decide)
     (by decide) (by decide)⟩

/-- C6: a user-authored `message` frame is never pushed verbatim to any
connection (every queue after the step contains the frame only if it did
before), exactly one synthetic typing event is appended to each room
connection with queue space, the fresh cancellation handle is registered
under the room key, and exactly one completion request is spawned —
all in the same hub iteration, before any assistant reply exists. -/
theorem c6_user_message_step (s : HubState) (m : Message)
    (cid : ClientId) (cs : ClientState)
    (htype : m.type = "message") (hrole : m.role = "user")
    (hnd : (roomClients s m.sessionID).Nodup)
    (hmem : cid ∈ roomClients s m.sessionID)
    (hcs : mapLookup s.clients cid = some cs)
    (hsp : cs.queue.length < sendChanCap) :
    mapLookup (broadcastStep s m).clients cid =
      some { cs with queue := cs.queue ++ [typingMsgOf s.fresh m] } ∧
    typingMsgOf s.fresh m ≠ m ∧
    (∀ cid' cs1, mapLookup (broadcastStep s m).clients cid' = some cs1 →
      ∃ cs0, mapLookup s.clients cid' = some cs0 ∧
        (m ∉ cs0.queue → m ∉ cs1.queue)) ∧
    mapLookup (broadcastStep s m).aiRequests m.sessionID = some s.fresh ∧
    (broadcastStep s m).pending = s.pending ++
      [{ room := m.sessionID, handle := s.fresh,
         content := m.content, model := m.model }] := by
  have hstop : ¬ m.type = "stop" := by rw [htype]; decide
  have hvis : ¬ (m.role = "assistant" ∨ m.type = "typing") := by
    rw [hrole, htype]; decide
  have htm : typingMsgOf s.fresh m ≠ m := by
    intro he
    have ht : (typingMsgOf s.fresh m).type = m.type := by rw [he]
    rw [htype] at ht
    have ht2 : (typingMsgOf s.fresh m).type = "typing" := rfl
    rw [ht2] at ht
    exact absurd ht (by decide)
  rw [broadcastStep_user_eq s m hstop hvis hrole]
  refine ⟨?_, htm, ?_, ?_, rfl⟩
  · exact deliverTyping_mem_space _ _ _ _ _ hnd hmem hcs hsp
  · intro cid' cs1 h1
    obtain ⟨cs0, h0, he⟩ := deliverTyping_queue_elems _ _ _ _ _ h1
    refine ⟨cs0, h0, fun hnotin hmm => ?_⟩
    rcases he m hmm with h | h
    · exact hnotin h
    · exact htm h.symm
  · exact mapLookup_insert_self _ _ _

/-- C6 witness: the concrete user message for room `s1` appends exactly
one typing frame to connection 0's queue, registers handle 10, and
spawns one completion call. -/
theorem c6_user_message_step_witness :
    (userMsg.type = "message" ∧ userMsg.role = "user") ∧
    (mapLookup (broadcastStep wState userMsg).clients 0 =
       some { newClientState "s1" with
              queue := (newClientState "s1").queue ++
                [typingMsgOf wState.fresh userMsg] } ∧
     typingMsgOf wState.fresh userMsg ≠ userMsg ∧
     (∀ cid' cs1,
       mapLookup (broadcastStep wState userMsg).clients cid' = some cs1 →
       ∃ cs0, mapLookup wState.clients cid' = some cs0 ∧
         (userMsg ∉ cs0.queue → userMsg ∉ cs1.queue)) ∧
     mapLookup (broadcastStep wState userMsg).aiRequests userMsg.sessionID =
       some wState.fresh ∧
     (broadcastStep wState userMsg).pending = wState.pending ++
       [{ room := userMsg.sessionID, handle := wState.fresh,
          content := userMsg.content, model := userMsg.model }]) :=
  ⟨⟨by decide, by decide⟩,
   c6_user_message_step wState userMsg 0 (newClientState "s1") (by decide)
     (by decide) (by decide) (by decide) (by decide) (by decide)⟩

/-- C7: the completion goroutine broadcasts nothing on a
non-cancellation error and nothing on cancellation (it only logs and
terminates — in particular no error frame ever reaches a queue, since
client states and rooms are untouched), and only on success feeds an
assistant `message` wrapping the returned text back through the
broadcast channel. -/
theorem c7_completion_outcomes (s : HubState) (call : Call) :
    (∀ res, (finishCall s call res).1.clients = s.clients ∧
            (finishCall s call res).1.rooms = s.rooms) ∧
    (finishCall s call CompletionResult.failure).2 = none ∧
    (finishCall s call CompletionResult.cancelledRes).2 = none ∧
    ∀ t, (finishCall s call (CompletionResult.success t)).2 =
      some { id := toString s.fresh, type := "message", sessionID := call.room,
             userID := "assistant", role := "assistant", content := t,
             model := call.model, createdAt := s.fresh } := by
  refine ⟨fun res => ?_, rfl, rfl, fun t => rfl⟩
  cases res <;> exact ⟨rfl, rfl⟩

/-- C8 counterexample: with two calls for room `s1` still running (the
map entry holding the second call's handle 2 after an overwrite),
termination of the first call deletes the entry — the map loses the
handle that belongs to the different, still-running second call, so the
claim as stated is false. -/
theorem c8_cross_call_removal_cex :
    mapLookup twoCallState.aiRequests call2.room = some call2.handle ∧
    call2 ∈ twoCallState.pending ∧
    (finishCall twoCallState call1 CompletionResult.failure).1.aiRequests = [] ∧
    call2 ∈ (finishCall twoCallState call1 CompletionResult.failure).1.pending := by
  decide

/-- C8 (amended): the deferred cleanup removes the in-flight map entry
for the finishing call's own room unconditionally — including a newer
handle that overwrote it — and never touches the entry of any other
room. -/
theorem c8_room_keyed_removal_amended (s : HubState) (call : Call)
    (res : CompletionResult) (R : String) (hne : R ≠ call.room) :
    mapLookup (finishCall s call res).1.aiRequests call.room = none ∧
    mapLookup (finishCall s call res).1.aiRequests R =
      mapLookup s.aiRequests R := by
  cases res <;>
    exact ⟨mapLookup_erase_self _ _, mapLookup_erase_ne _ _ _ hne⟩

/-- C8 witness: finishing call1 empties the `s1` entry while leaving a
different room's lookup unchanged. -/
theorem c8_room_keyed_removal_witness :
    ("s2" : String) ≠ call1.room ∧
    (mapLookup (finishCall twoCallState call1 CompletionResult.failure).1.aiRequests
       call1.room = none ∧
     mapLookup (finishCall twoCallState call1 CompletionResult.failure).1.aiRequests
       "s2" = mapLookup twoCallState.aiRequests "s2") :=
  ⟨by decide,
   c8_room_keyed_removal_amended twoCallState call1 CompletionResult.failure
     "s2" (by decide)⟩

/-- C9: every frame forwarded by the read loop carries the session id of
the room the connection registered with (the query-parameter room of the
handshake), regardless of the sessionId in the frame, and a broadcast of
such a forwarded frame leaves the in-flight map and room registry of
every other room untouched. -/
theorem c9_session_pinning (room : String) (m : Message) (s : HubState)
    (k : String) (hk : k ≠ room) :
    (forwardFrame room m).sessionID = room ∧
    (newClientState room).room = room ∧
    mapLookup (broadcastStep s (forwardFrame room m)).aiRequests k =
      mapLookup s.aiRequests k ∧
    mapLookup (broadcastStep s (forwardFrame room m)).rooms k =
      mapLookup s.rooms k := by
  refine ⟨rfl, rfl, ?_, ?_⟩
  · exact broadcastStep_aiRequests_other s _ k hk
  · exact broadcastStep_rooms_other s _ k hk

/-- C9 witness: a stop frame claiming room `s9`, read by a connection of
room `s1`, is pinned to `s1` and cannot touch room `s2`'s state. -/
theorem c9_session_pinning_witness :
    ("s2" : String) ≠ "s1" ∧
    ((forwardFrame "s1" spoofMsg).sessionID = "s1" ∧
     (newClientState "s1").room = "s1" ∧
     mapLookup (broadcastStep wState (forwardFrame "s1" spoofMsg)).aiRequests
       "s2" = mapLookup wState.aiRequests "s2" ∧
     mapLookup (broadcastStep wState (forwardFrame "s1" spoofMsg)).rooms
       "s2" = mapLookup wState.rooms "s2") :=
  ⟨by decide, c9_session_pinning "s1" spoofMsg wState "s2" (by decide)⟩

set_option maxRecDepth 20000 in
/-- C10: the code closes a dropped connection's outbound queue twice —
connection 7, dropped with one close during the assistant broadcast,
gets `close(client.send)` called again when its unregister event is
processed (the registry still holds the room entry, so the guard at line
86 passes), reaching a close count of 2; in Go the second close panics
the hub goroutine, so the claimed at-most-once property is the intended
behaviour and this trace exhibits the code bug. -/
theorem c10_double_close_bug :
    mapLookup (broadcastStep dropState asstMsg).clients 7 =
      some { room := "s1", queue := List.replicate sendChanCap fillMsg,
             closed := true, closeCount := 1 } ∧
    mapLookup (unregisterStep (broadcastStep dropState asstMsg) 7).clients 7 =
      some { room := "s1", queue := List.replicate sendChanCap fillMsg,
             closed := true, closeCount := 2 } := by decide

end Botanic
